import Mathlib

/-!
Verification development for the py-crawler repository.

This file gives a shallow embedding, in Lean 4, of the rendered-content
extraction engine of the repository (the `hwpx` preview-URL resolver, the
frame-aware text extractor, the batch content population, and the resilient
render pipeline of the Naver collector), and proves or refutes the frozen
claims about it.

Python strings are modelled as Lean `String` (a list of unicode code points,
compared lexicographically by code point exactly as Python compares and sorts
strings).  Python `None`/`str` optionals are modelled by `Option String`;
Python exceptions are modelled by `Except`.  Each definition mirrors one
function of the source, named after it where Lean's grammar allows.
-/

namespace PyCrawler

/-! ## Python string primitives used by the source -/

/-- Whitespace characters of Python's `str.strip()` and of the regex class
used by the source (ASCII whitespace: space, tab, newline, carriage return,
vertical tab, form feed). -/
def pyIsSpace (c : Char) : Bool :=
  c = ' ' || c = '\t' || c = '\n' || c = '\r' || c = '\x0b' || c = '\x0c'

/-- Python `str.strip()`: drop whitespace from both ends. -/
def pyStrip (s : String) : String :=
  ⟨((s.data.dropWhile pyIsSpace).reverse.dropWhile pyIsSpace).reverse⟩

/-- Python `url.replace(" ", "%20")`: every literal space becomes `%20`. -/
def encodeSpaces (s : String) : String :=
  ⟨s.data.flatMap fun c => if c = ' ' then ['%', '2', '0'] else [c]⟩

/-- Python `str.startswith`: `pyStartsWith s pre` is true when `pre` is a
prefix of `s`. -/
def pyStartsWith (s pre : String) : Bool :=
  pre.data.isPrefixOf s.data

/-- Executable substring test, Python's `needle in hay` for strings. -/
def containsSubAux (needle : List Char) : List Char → Bool
  | [] => needle.isPrefixOf []
  | c :: rest => needle.isPrefixOf (c :: rest) || containsSubAux needle rest

/-- Python `needle in hay` (substring containment). -/
def containsSub (needle hay : String) : Bool :=
  containsSubAux needle.data hay.data

/-- Executable lexicographic (code-point) comparison of character lists,
the order Python uses to compare strings. -/
def charListLe : List Char → List Char → Bool
  | [], _ => true
  | _ :: _, [] => false
  | a :: as, b :: bs => if a = b then charListLe as bs else decide (a < b)

/-- Python's `s1 <= s2` on strings, as an executable relation. -/
def strLe (a b : String) : Prop := charListLe a.data b.data = true

instance : DecidableRel strLe := fun a b =>
  inferInstanceAs (Decidable (charListLe a.data b.data = true))

/-- `charListLe` decides equality-or-lexicographic-less on character lists. -/
theorem charListLe_iff :
    ∀ as bs : List Char, charListLe as bs = true ↔ (as = bs ∨ List.Lex (· < ·) as bs)
  | [], [] => by simp [charListLe]
  | [], _ :: _ => by simp [charListLe, List.Lex.nil]
  | a :: as, [] => by simp [charListLe]
  | a :: as, b :: bs => by
    by_cases hab : a = b
    · subst hab
      rw [charListLe, if_pos rfl, charListLe_iff as bs]
      constructor
      · intro h
        rcases h with h | h
        · exact Or.inl (by rw [h])
        · exact Or.inr (List.Lex.cons h)
      · intro h
        rcases h with h | h
        · exact Or.inl (by injection h)
        · exact Or.inr (List.Lex.cons_iff.mp h)
    · rw [charListLe, if_neg hab]
      constructor
      · intro h
        exact Or.inr (List.Lex.rel (of_decide_eq_true h))
      · intro h
        rcases h with h | h
        · exact absurd (by injection h) hab
        · cases h with
          | cons h' => exact absurd rfl hab
          | rel h' => exact decide_eq_true h'

/-- `strLe` coincides with Mathlib's lexicographic order on `String`. -/
theorem strLe_iff (a b : String) : strLe a b ↔ a ≤ b := by
  rw [String.le_iff_toList_le, le_iff_lt_or_eq]
  rw [show (a.toList < b.toList) = List.Lex (· < ·) a.data b.data from rfl]
  rw [show (a.toList = b.toList) = (a.data = b.data) from rfl]
  rw [strLe]
  rw [charListLe_iff a.data b.data]
  tauto

instance : IsTotal String strLe :=
  ⟨fun a b => by rw [strLe_iff, strLe_iff]; exact le_total a b⟩

instance : IsTrans String strLe :=
  ⟨fun a b c hab hbc => by
    rw [strLe_iff] at hab hbc ⊢; exact le_trans hab hbc⟩

instance : IsAntisymm String strLe :=
  ⟨fun a b hab hba => by
    rw [strLe_iff] at hab hba; exact le_antisymm hab hba⟩

/-- Python `sorted(set(urls))`: the distinct elements in ascending
lexicographic (code-point) order.  `List.dedup` removes duplicates and
`List.insertionSort` arranges the distinct survivors, which pins the same
unique sorted list Python produces. -/
def pySortedSet (urls : List String) : List String :=
  List.insertionSort strLe urls.dedup

/-! ## src/hwpx/parsers.py — normalization pipeline -/

/-- `IFRAME_KEY` of src/hwpx/parsers.py. -/
def IFRAME_KEY : String := "docviewer/skin/doc.html"

/-- `_contains_hangul` of src/hwpx/parsers.py: true when some character of
the string lies in the Hangul syllable block U+AC00..U+D7A3. -/
def contains_hangul (s : String) : Bool :=
  s.data.any fun c => 0xac00 ≤ c.toNat && c.toNat ≤ 0xd7a3

/-- One iteration of the filter loop of `normalize_preview_urls`
(src/hwpx/parsers.py lines 105-116): skip empty entries, strip, require an
`http` prefix, require the viewer-path marker, reject Hangul, then
percent-encode spaces.  Returns the value appended to `normalized`, or
`none` when the entry is skipped. -/
def acceptUrl (url : String) : Option String :=
  if url = "" then none
  else
    let clean := pyStrip url
    if ¬ pyStartsWith clean "http" then none
    else if ¬ containsSub IFRAME_KEY clean then none
    else if contains_hangul clean then none
    else some (encodeSpaces clean)

/-- `normalize_preview_urls` of src/hwpx/parsers.py: filter the sorted
deduplicated candidates; if nothing survives, fall back to the raw
deduplicated non-empty union with spaces percent-encoded. -/
def normalize_preview_urls (urls : List String) : List String :=
  let normalized := (pySortedSet urls).filterMap acceptUrl
  if normalized = [] then
    (pySortedSet urls |>.filter fun u => u ≠ "").map encodeSpaces
  else normalized

/-- Path component of a URL, as Python's `urlparse(...).path` computes it for
the URL shapes the source handles: everything after the authority (when a
`://` separator is present) up to the query or fragment. -/
def pyUrlPath (u : String) : String :=
  if containsSub "://" u then
    ⟨(((u.data.drop ((u.data.takeWhile fun c => c ≠ ':').length + 3)).dropWhile
        fun c => c ≠ '/').takeWhile fun c => c ≠ '?' && c ≠ '#')⟩
  else
    ⟨u.data.takeWhile fun c => c ≠ '?' && c ≠ '#'⟩

/-! ## src/hwpx/base.py and src/hwpx/extractor.py — documents and batch
population -/

/-- `HwpxDocument` of src/hwpx/base.py (the `meta` dict is irrelevant to the
claims and omitted; `preview_urls` is the list of candidate viewer URLs). -/
structure HwpxDocument where
  title : String
  page_url : String
  preview_urls : List String
  content : Option String
deriving DecidableEq

/-- The `last_text` accumulation loop of `_populate_documents_async`
(src/hwpx/extractor.py lines 62-66): `session.extract` is modelled by the
pure function `f`; a non-empty extraction overwrites the accumulator, an
empty one leaves it unchanged. -/
def sessionLastText (f : String → String) (urls : List String) : Option String :=
  urls.foldl (fun acc url => let t := f url; if t = "" then acc else some t) none

/-- Per-document body of `_populate_documents_async` (src/hwpx/extractor.py
lines 59-68): documents without candidates are skipped, and `content` is
assigned only when the accumulated `last_text` is truthy. -/
def populateDocument (f : String → String) (d : HwpxDocument) : HwpxDocument :=
  if d.preview_urls = [] then d
  else
    match sessionLastText f d.preview_urls with
    | some t => if t = "" then d else { d with content := some t }
    | none => d

/-- `_populate_documents_async` of src/hwpx/extractor.py: one extraction
session processes the documents in order. -/
def populate_documents (f : String → String) (docs : List HwpxDocument) :
    List HwpxDocument :=
  docs.map (populateDocument f)

/-! ## src/src/extract_hwpx_latest.py — text cleaning -/

/-- The substitution `re.sub(r'\s+', ' ', text)` of `_clean_text`
(src/src/extract_hwpx_latest.py line 144): every maximal run of whitespace
characters (newlines included — `\s` matches them) becomes one space.  The
boolean argument records whether the previous character belonged to a
whitespace run. -/
def collapseWsAux : Bool → List Char → List Char
  | _, [] => []
  | inRun, c :: cs =>
    if pyIsSpace c then
      if inRun then collapseWsAux true cs else ' ' :: collapseWsAux true cs
    else c :: collapseWsAux false cs

/-- Replacement for one maximal run of `n` newlines under
`re.sub(r'\n{3,}', '\n\n', ...)`: runs of three or more become exactly two,
shorter runs are kept. -/
def emitNl (n : Nat) : List Char :=
  if 3 ≤ n then ['\n', '\n'] else List.replicate n '\n'

/-- The substitution `re.sub(r'\n{3,}', '\n\n', text)` of `_clean_text`
(src/src/extract_hwpx_latest.py line 147).  The counter carries the length
of the pending newline run. -/
def collapseNlAux : Nat → List Char → List Char
  | pending, [] => emitNl pending
  | pending, c :: cs =>
    if c = '\n' then collapseNlAux (pending + 1) cs
    else emitNl pending ++ c :: collapseNlAux 0 cs

/-- `_clean_text` of src/src/extract_hwpx_latest.py lines 138-152: empty
input short-circuits, then whitespace collapse, then newline-run limiting,
then strip. -/
def clean_text (text : String) : String :=
  if text = "" then ""
  else pyStrip ⟨collapseNlAux 0 (collapseWsAux false text.data)⟩

/-! ## src/hwpx/parsers.py — the three extraction strategies.

The rendered page is modelled after what the source's CSS selectors read
from it: the `src` of every `div.bbs_file_preview iframe[src]` in document
order, each `a.bbs_icon_preveiw[onclick]` anchor together with the pieces
of its parent `li` the code consults, and the `onclick` of every anchor
inside a `div[id^='fileDiv']`.  The regular expressions of the source are
implemented directly as leftmost-match scanners. -/

/-- The apostrophe character (U+0027), used as the quote of the onclick
regexes. -/
def quoteChar : Char := Char.ofNat 39

/-- Match a literal at the head of the input, returning the rest. -/
def dropLit (lit l : List Char) : Option (List Char) :=
  if lit.isPrefixOf l then some (l.drop lit.length) else none

/-- Greedy capture group `[^']+`: a non-empty maximal run of non-quote
characters, returned with the rest of the input. -/
def readGroup (l : List Char) : Option (List Char × List Char) :=
  let grp := l.takeWhile fun c => c ≠ quoteChar
  if grp.isEmpty then none else some (grp, l.drop grp.length)

/-- Anchored match of the regex
`fnConvertDocViewer\('([^']+)','([^']+)','([^']+)'\)`
(src/hwpx/parsers.py line 39). -/
def matchFnAt (l : List Char) : Option (String × String × String) := do
  let r1 ← dropLit "fnConvertDocViewer('".data l
  let (g1, r2) ← readGroup r1
  let r3 ← dropLit "','".data r2
  let (g2, r4) ← readGroup r3
  let r5 ← dropLit "','".data r4
  let (g3, r6) ← readGroup r5
  let _ ← dropLit "')".data r6
  some (⟨g1⟩, ⟨g2⟩, ⟨g3⟩)

/-- Leftmost-match search for the `fnConvertDocViewer` pattern. -/
def searchFnAux : List Char → Option (String × String × String)
  | [] => none
  | c :: t =>
    match matchFnAt (c :: t) with
    | some r => some r
    | none => searchFnAux t

/-- `re.search` of the `fnConvertDocViewer` regex over a string. -/
def searchFn (s : String) : Option (String × String × String) :=
  searchFnAux s.data

/-- Anchored match of the regex `[?&]rs=([^&]+)` (src/hwpx/parsers.py
lines 33 and 60). -/
def matchRsAt : List Char → Option String
  | [] => none
  | c :: t =>
    if c = '?' || c = '&' then
      match dropLit "rs=".data t with
      | some r =>
        let grp := r.takeWhile fun ch => ch ≠ '&'
        if grp.isEmpty then none else some ⟨grp⟩
      | none => none
    else none

/-- Leftmost-match search for the `rs` query parameter. -/
def searchRsAux : List Char → Option String
  | [] => none
  | c :: t =>
    match matchRsAt (c :: t) with
    | some r => some r
    | none => searchRsAux t

/-- `re.search(r"[?&]rs=([^&]+)", s)` returning the captured group. -/
def searchRs (s : String) : Option String :=
  searchRsAux s.data

/-- Anchored match of the regex `window\.open\('(synapviewer\.do[^']+)'\)`
(src/hwpx/parsers.py line 78), returning the captured group. -/
def matchSynapAt (l : List Char) : Option String :=
  match dropLit "window.open('synapviewer.do".data l with
  | none => none
  | some r1 =>
    let grp := r1.takeWhile fun c => c ≠ quoteChar
    if grp.isEmpty then none
    else
      match dropLit "')".data (r1.drop grp.length) with
      | some _ => some ("synapviewer.do" ++ ⟨grp⟩)
      | none => none

/-- Leftmost-match search for the `synapviewer.do` opener pattern. -/
def searchSynapAux : List Char → Option String
  | [] => none
  | c :: t =>
    match matchSynapAt (c :: t) with
    | some r => some r
    | none => searchSynapAux t

/-- `re.search` of the `synapviewer.do` regex over a string. -/
def searchSynap (s : String) : Option String :=
  searchSynapAux s.data

/-- Python `s.strip("/")`: remove slashes from both ends. -/
def stripSlashes (s : String) : String :=
  ⟨((s.data.dropWhile fun c => c = '/').reverse.dropWhile fun c => c = '/').reverse⟩

/-- Python `s.split(sep)` worker; the accumulator carries the current field
reversed.  `split` with an explicit separator never returns an empty
list — splitting the empty string yields `[""]`. -/
def pySplitAux (sep : Char) : List Char → List Char → List (List Char)
  | acc, [] => [acc.reverse]
  | acc, c :: t =>
    if c = sep then acc.reverse :: pySplitAux sep [] t
    else pySplitAux sep (c :: acc) t

/-- Python `s.split(sep)` for a one-character separator. -/
def pySplit (sep : Char) (s : String) : List String :=
  (pySplitAux sep [] s.data).map fun l => ⟨l⟩

/-- Scheme plus authority of an absolute `http(s)` URL — the part
`urllib.parse.urljoin` keeps when joining a root-relative reference. -/
def schemeAuthority (base : String) : String :=
  let l := base.data
  let pre := l.takeWhile fun c => c ≠ ':'
  let rest := l.drop (pre.length + 3)
  ⟨pre ++ ':' :: '/' :: '/' :: (rest.takeWhile fun c => c ≠ '/' && c ≠ '?' && c ≠ '#')⟩

/-- Directory of the base URL's path (up to and including its last slash),
used by `urljoin` for relative references; an empty or slash-free path
contributes Python's `rsplit`-based prefix. -/
def baseDir (base : String) : String :=
  let p := pyUrlPath base
  if p.data.contains '/' then ⟨(p.data.reverse.dropWhile fun c => c ≠ '/').reverse⟩
  else "/"

/-- `urllib.parse.urljoin(base, url)` for the reference shapes the source
produces: absolute `http(s)` URLs pass through, root-relative references
join the base's scheme and authority, other relative references join the
base path's directory.  (Dot-segment normalization never arises for these
shapes and is not modelled.) -/
def urljoin (base url : String) : String :=
  if pyStartsWith url "http://" || pyStartsWith url "https://" then url
  else if pyStartsWith url "/" then schemeAuthority base ++ url
  else schemeAuthority base ++ baseDir base ++ url

/-- What the code reads from an onclick-anchor's parent `li`: the stripped
text of `.bbs_file_cont > strong` and the `src` of
`div.bbs_file_preview iframe[src]` inside the row. -/
structure LiContext where
  strongText : Option String
  iframeSrc : Option String
deriving DecidableEq

/-- One `a.bbs_icon_preveiw[onclick]` anchor and its parent `li` (absent
when the anchor has no `li` ancestor). -/
structure PreviewAnchor where
  onclick : String
  li : Option LiContext
deriving DecidableEq

/-- The parsed page, holding exactly the DOM projections the three
strategies of src/hwpx/parsers.py query. -/
structure ParsedPage where
  previewIframeSrcs : List String
  anchors : List PreviewAnchor
  fileDivOnclicks : List String
deriving DecidableEq

/-- `_extract_urls_from_iframes` of src/hwpx/parsers.py lines 20-26 (the
source collects into a set; the set union and deduplication happen in
`normalize_preview_urls`, so a list in encounter order is a faithful
carrier). -/
def extract_urls_from_iframes (page : ParsedPage) (base : String) : List String :=
  page.previewIframeSrcs.filterMap fun src =>
    if src ≠ "" ∧ containsSub IFRAME_KEY src then some (urljoin base src) else none

/-- `_find_any_rs_suffix` of src/hwpx/parsers.py lines 29-34: the `rs`
parameter of the first preview iframe whose `src` mentions
`docviewer/result/`. -/
def find_any_rs_suffix (page : ParsedPage) : Option String :=
  match page.previewIframeSrcs.find? (fun src => containsSub "docviewer/result/" src) with
  | none => none
  | some src => searchRs src

/-- The same-row `rs` suffix of an anchor (src/hwpx/parsers.py
lines 56-62). -/
def rowRs (a : PreviewAnchor) : Option String :=
  match a.li with
  | none => none
  | some li =>
    match li.iframeSrc with
    | none => none
    | some src => searchRs src

/-- The sibling filename label of an anchor (src/hwpx/parsers.py
lines 47-52). -/
def anchorFilename (a : PreviewAnchor) : Option String :=
  match a.li with
  | none => none
  | some li => li.strongText

/-- Loop body of `_extract_urls_from_onclick` (src/hwpx/parsers.py
lines 42-71) for one anchor: parse the handler, require a non-empty
filename, take the same-row `rs` or reconstruct one from the page-level
suffix's year-month tail, and build the viewer URL. -/
def anchorCandidate (rsSuffix : Option String) (base : String)
    (a : PreviewAnchor) : Option String :=
  match searchFn a.onclick with
  | none => none
  | some (brd_id, seq, file_seq) =>
    match anchorFilename a with
    | none => none
    | some filename =>
      if filename = "" then none
      else
        let rs : Option String :=
          match rowRs a with
          | some r => some r
          | none =>
            match rsSuffix with
            | some suffix =>
              if suffix = "" then none
              else
                let tail := pySplit '/' (stripSlashes suffix)
                let yyyy_mm := tail.getLast?.getD ""
                some ("/docviewer/result/" ++ brd_id ++ "/" ++ seq ++ "/"
                  ++ file_seq ++ "/" ++ yyyy_mm)
            | none => none
        match rs with
        | none => none
        | some r =>
          if r = "" then none
          else some (urljoin base ("/docviewer/skin/doc.html?fn=" ++ filename
            ++ "&rs=" ++ r))

/-- `_extract_urls_from_onclick` of src/hwpx/parsers.py lines 37-73. -/
def extract_urls_from_onclick (page : ParsedPage) (base : String) : List String :=
  page.anchors.filterMap (anchorCandidate (find_any_rs_suffix page) base)

/-- The `page_path` computation of `_extract_synapviewer_urls`
(src/hwpx/parsers.py lines 80-81): the base page's path directory, via
Python's `path.rsplit('/', 1)[0] + '/'`, or `''` for an empty path. -/
def pageDir (pageUrl : String) : String :=
  let p := pyUrlPath pageUrl
  if p = "" then ""
  else if p.data.contains '/' then ⟨(p.data.reverse.dropWhile fun c => c ≠ '/').reverse⟩
  else p ++ "/"

/-- `_extract_synapviewer_urls` of src/hwpx/parsers.py lines 76-93. -/
def extract_synapviewer_urls (page : ParsedPage) (base pageUrl : String) :
    List String :=
  let page_path := pageDir pageUrl
  page.fileDivOnclicks.filterMap fun oc =>
    match searchSynap oc with
    | none => none
    | some viewer_url =>
      let v :=
        if pyStartsWith viewer_url "http://" || pyStartsWith viewer_url "https://"
            || pyStartsWith viewer_url "/"
        then viewer_url
        else page_path ++ viewer_url
      some (urljoin base v)

/-- `extract_preview_urls` of src/hwpx/parsers.py lines 12-17: union the
three strategies (list concatenation; `normalize_preview_urls` performs the
set deduplication) and normalize. -/
def extract_preview_urls (page : ParsedPage) (base_url : String)
    (page_url : Option String) : List String :=
  normalize_preview_urls
    (extract_urls_from_iframes page base_url
      ++ extract_urls_from_onclick page base_url
      ++ extract_synapviewer_urls page base_url (page_url.getD ""))

/-! ## src/naver/collector.py — the resilient render pipeline.

`_acrawl_markdown` (lines 208-227) is modelled over an attempt oracle
`f : Nat → Except Unit (Option String × Option String)`: attempt `i`
either raises (`error`, covering timeouts and crawler exceptions) or
completes with the `fit_markdown`/`raw_markdown` pair read off the result.
The loop body, the `time.sleep(self.crawl_delay)` executed after every
non-returning attempt, and the final failure marker are reproduced
exactly; the produced event trace records attempts and sleeps in order. -/

/-- One observable step of the retry loop: an attempt with its index, or an
inter-attempt sleep. -/
inductive CrawlEvent where
  | attempt (i : Nat)
  | sleep
deriving DecidableEq

/-- The dict `{"fit": ..., "raw": ...}` returned by `_acrawl_markdown`. -/
structure CrawlResult where
  fit : Option String
  raw : Option String
deriving DecidableEq

/-- Python truthiness of an optional string: `None` and `""` are falsy. -/
def truthyOpt : Option String → Bool
  | none => false
  | some s => decide (s ≠ "")

/-- Python `a or b` on optional strings. -/
def pyOr (a b : Option String) : Option String :=
  if truthyOpt a then a else b

/-- The value returned when an attempt yields markdown:
`{"fit": fit_md or raw_md, "raw": raw_md or fit_md}`. -/
def successResult : Except Unit (Option String × Option String) → CrawlResult
  | .ok (fit, raw) => ⟨pyOr fit raw, pyOr raw fit⟩
  | .error _ => ⟨none, none⟩

/-- An attempt fails when it raises, or completes with neither a truthy
`fit_markdown` nor a truthy `raw_markdown` (no early `return`). -/
def attemptFails : Except Unit (Option String × Option String) → Bool
  | .error _ => true
  | .ok (fit, raw) => !(truthyOpt fit || truthyOpt raw)

/-- The `for attempt in range(...)` loop of `_acrawl_markdown`: `i` is the
next attempt index, the second argument the number of remaining iterations.
A successful attempt returns at once; any other outcome sleeps and
continues; an exhausted range returns the `{"fit": None, "raw": None}`
failure marker. -/
def crawlFrom (f : Nat → Except Unit (Option String × Option String)) :
    Nat → Nat → CrawlResult × List CrawlEvent
  | _, 0 => (⟨none, none⟩, [])
  | i, r + 1 =>
    match f i with
    | .ok (fit, raw) =>
      if truthyOpt fit || truthyOpt raw then
        (⟨pyOr fit raw, pyOr raw fit⟩, [.attempt i])
      else
        let rest := crawlFrom f (i + 1) r
        (rest.1, .attempt i :: .sleep :: rest.2)
    | .error _ =>
      let rest := crawlFrom f (i + 1) r
      (rest.1, .attempt i :: .sleep :: rest.2)

/-- `_acrawl_markdown` of src/naver/collector.py lines 208-227:
`range(self.crawl_retries + 1)` gives `retries + 1` attempts at most. -/
def acrawl_markdown (f : Nat → Except Unit (Option String × Option String))
    (retries : Nat) : CrawlResult × List CrawlEvent :=
  crawlFrom f 0 (retries + 1)

/-- Attempt events of a trace. -/
def isAttempt : CrawlEvent → Bool
  | .attempt _ => true
  | .sleep => false

/-- The trace a run of consecutive failing attempts leaves: each attempt is
immediately followed by one inter-attempt sleep. -/
def failTrace : Nat → Nat → List CrawlEvent
  | _, 0 => []
  | i, r + 1 => .attempt i :: .sleep :: failTrace (i + 1) r

/-! ## src/src/extract_hwpx_latest.py — frame-aware extraction.

`extract_text_from_url` and `_extract_text_with_iframe` are modelled over
oracles giving each awaited browser primitive's outcome: `Except.error`
stands for a raised exception (timeout, detached frame, closed page), and
the model's control flow reproduces the source's `try/except` nesting, so
an `Except.error` result of the model corresponds exactly to an exception
escaping the function's boundary. -/

/-- Outcomes of the two per-frame reads `_scroll_and_get_text` attempts:
the scrolling `frame.evaluate` script and the `locator("body").inner_text`
fallback. -/
structure FrameOracle where
  evalScroll : Except Unit String
  bodyInner : Except Unit String

/-- `_scroll_and_get_text` of src/src/extract_hwpx_latest.py lines 64-91:
evaluate, fall back to the body locator, degrade to `""`. -/
def scroll_and_get_text (fo : FrameOracle) : Except Unit String :=
  match fo.evalScroll with
  | .ok t => .ok t
  | .error _ =>
    match fo.bodyInner with
    | .ok t => .ok t
    | .error _ => .ok ""

/-- Outcomes of the page-level awaited primitives of
`extract_text_from_url` / `_extract_text_with_iframe`: navigation, the
`iframe#innerWrap` wait (which may raise, find no content frame, or yield a
frame), the page's frame list, and `page.inner_text('body')`. -/
structure PageOracle where
  gotoResult : Except Unit Unit
  innerWrapFrame : Except Unit (Option FrameOracle)
  frames : List FrameOracle
  bodyText : Except Unit String

/-- The per-frame contribution of the frame loop (lines 106-112): a frame
whose read yields truthy text contributes its stripped text, anything else
contributes nothing. -/
def chunkOf (fo : FrameOracle) : Option String :=
  match scroll_and_get_text fo with
  | .ok t => if t = "" then none else some (pyStrip t)
  | .error _ => none

/-- The `(len(chunk), hash(chunk))` deduplication of lines 115-121,
first-seen order preserved, empty chunks skipped.  Python's `hash` is
modelled by the chunk itself (collisions of a 64-bit string hash are not
modelled). -/
def dedupChunks : List (Nat × String) → List String → List String
  | _, [] => []
  | seen, c :: cs =>
    if seen.contains (c.length, c) ∨ c = "" then dedupChunks seen cs
    else c :: dedupChunks ((c.length, c) :: seen) cs

/-- The body-read tail of `_extract_text_with_iframe` (lines 128-135): the
`return await self.page.inner_text('body')` of the `try`, whose exception
reaches the outer `except`, which retries the same read and degrades to
`""` when it raises again. -/
def bodyFallback (p : PageOracle) : Except Unit String :=
  match p.bodyText with
  | .ok t => .ok t
  | .error _ =>
    match p.bodyText with
    | .ok t => .ok t
    | .error _ => .ok ""

/-- `_extract_text_with_iframe` of src/src/extract_hwpx_latest.py
lines 56-135: the `innerWrap` contribution, the all-frames loop, dedup and
blank-line join, then the body fallback. -/
def extract_text_with_iframe (p : PageOracle) : Except Unit String :=
  let c1 : List String :=
    match p.innerWrapFrame with
    | .error _ => []
    | .ok none => []
    | .ok (some fo) =>
      match scroll_and_get_text fo with
      | .ok t => if t = "" then [] else [pyStrip t]
      | .error _ => []
  let c2 := p.frames.filterMap chunkOf
  let uniq := dedupChunks [] (c1 ++ c2)
  let merged := String.intercalate "\n\n" uniq
  if pyStrip merged ≠ "" then .ok merged
  else bodyFallback p

/-- `extract_text_from_url` of src/src/extract_hwpx_latest.py lines 35-54:
navigation errors and any error of the extraction are caught by the
enclosing `try`, which returns `""`; otherwise the optional cleaning step
runs.  (The best-effort `networkidle` wait swallows its own timeout and
affects no modelled value.) -/
def extract_text_from_url (p : PageOracle) (clean : Bool) : Except Unit String :=
  match p.gotoResult with
  | .error _ => .ok ""
  | .ok _ =>
    match extract_text_with_iframe p with
    | .ok t => .ok (if clean then clean_text t else t)
    | .error _ => .ok ""

end PyCrawler

namespace PyCrawler

/-! ## Theorems -/

/-- Helper: the `last_text` fold keeps the image of the last candidate whose
extraction is non-empty, and the initial accumulator otherwise. -/
theorem foldl_lastText_eq_find (f : String → String) :
    ∀ (l : List String) (acc : Option String),
      List.foldl (fun acc url => let t := f url; if t = "" then acc else some t) acc l
        = match l.reverse.find? (fun u => decide (f u ≠ "")) with
          | some u => some (f u)
          | none => acc := by
  intro l
  induction l with
  | nil => intro acc; rfl
  | cons u us ih =>
    intro acc
    rw [List.foldl_cons, ih, List.reverse_cons, List.find?_append]
    cases hfind : us.reverse.find? (fun u => decide (f u ≠ "")) with
    | some v => rfl
    | none =>
      by_cases hu : f u = ""
      · simp [List.find?, hu]
      · simp [List.find?, hu]

/-- C1: in batch content population every document is processed
independently in order, and for a document whose content starts unset the
final content is exactly the extraction of the last candidate preview URL
(in list order) whose extraction is non-empty — an empty extraction never
overwrites an earlier non-empty one — and stays unset when no candidate
extracts non-empty text. -/
theorem populate_content_last_nonempty_wins (f : String → String)
    (docs : List HwpxDocument) :
    populate_documents f docs = docs.map (populateDocument f)
    ∧ ∀ d : HwpxDocument, d.content = none →
        (populateDocument f d).content
          = (d.preview_urls.reverse.find? fun u => decide (f u ≠ "")).map f := by
  refine ⟨rfl, ?_⟩
  intro d hd
  unfold populateDocument
  by_cases hp : d.preview_urls = []
  · simp [hp, hd]
  · rw [if_neg hp]
    unfold sessionLastText
    rw [foldl_lastText_eq_find]
    cases hfind : d.preview_urls.reverse.find? (fun u => decide (f u ≠ "")) with
    | none => simpa using hd
    | some u =>
      have hu : f u ≠ "" := by
        have := List.find?_some hfind
        simpa using this
      simp [hu]

/-- C1 witness: end-to-end scenario B — candidates `["u1", "u2"]` where
`u1` extracts `"Hello"` and `u2` extracts `""` leave content `"Hello"`. -/
theorem populate_content_last_nonempty_wins_witness :
    (populateDocument (fun u => if u = "u1" then "Hello" else "")
        ⟨"t", "p", ["u1", "u2"], none⟩).content = some "Hello" := by
  have h := (populate_content_last_nonempty_wins
      (fun u => if u = "u1" then "Hello" else "") []).2
      ⟨"t", "p", ["u1", "u2"], none⟩ rfl
  rw [h]; decide

/-- C2: the fallback law — when every sorted deduplicated candidate is
rejected by the filter chain but the raw union holds a non-empty string,
`normalize_preview_urls` returns exactly the deduplicated non-empty raw
union with literal spaces percent-encoded. -/
theorem normalize_fallback_law (urls : List String)
    (hacc : ∀ u ∈ pySortedSet urls, acceptUrl u = none)
    (hraw : ∃ u ∈ urls, u ≠ "") :
    normalize_preview_urls urls
      = ((pySortedSet urls).filter fun u => u ≠ "").map encodeSpaces := by
  unfold normalize_preview_urls
  rw [List.filterMap_eq_nil_iff.mpr hacc]
  simp

/-- C2 witness: a single malformed candidate (`ftp` scheme, embedded space)
is rejected by the filter yet returned space-encoded by the fallback. -/
theorem normalize_fallback_law_witness :
    normalize_preview_urls ["ftp://a b"] = ["ftp://a%20b"] := by
  have h := normalize_fallback_law ["ftp://a b"] (by decide)
    ⟨"ftp://a b", by simp, by decide⟩
  rw [h]; decide

/-- C3 counterexample: a candidate whose path is Hangul-free but whose query
string carries Hangul (a filename parameter) passes the scheme and
viewer-marker filters yet is dropped by normalization — refuting the claim
that Hangul outside the path never causes rejection. -/
theorem hangul_in_query_rejected_cex :
    contains_hangul
        (pyUrlPath "https://h/docviewer/skin/doc.html?fn=문서.hwpx&rs=/r/1") = false
    ∧ pyStartsWith
        (pyStrip "https://h/docviewer/skin/doc.html?fn=문서.hwpx&rs=/r/1") "http" = true
    ∧ containsSub IFRAME_KEY
        (pyStrip "https://h/docviewer/skin/doc.html?fn=문서.hwpx&rs=/r/1") = true
    ∧ normalize_preview_urls
        ["https://h/docviewer/skin/doc.html?fn=문서.hwpx&rs=/r/1",
         "https://h/docviewer/skin/doc.html?fn=ok.hwpx&rs=/r/1"]
      = ["https://h/docviewer/skin/doc.html?fn=ok.hwpx&rs=/r/1"] := by
  refine ⟨by decide, by decide, by decide, by decide⟩

/-- C3 amended: a candidate that passes the scheme and viewer-path-marker
filters is dropped exactly when the whole (stripped) URL string contains a
Hangul character — anywhere, the query string included, not only in the
path. -/
theorem acceptUrl_drops_iff_hangul (url : String) (h0 : url ≠ "")
    (h1 : pyStartsWith (pyStrip url) "http" = true)
    (h2 : containsSub IFRAME_KEY (pyStrip url) = true) :
    acceptUrl url = none ↔ contains_hangul (pyStrip url) = true := by
  unfold acceptUrl
  rw [if_neg h0]
  simp only [h1, h2]
  by_cases hh : contains_hangul (pyStrip url) = true
  · simp [hh]
  · simp [hh]

/-- C3 amended witness: the Hangul-in-query candidate is dropped. -/
theorem acceptUrl_drops_iff_hangul_witness :
    acceptUrl "https://h/docviewer/skin/doc.html?fn=문서.hwpx&rs=/r/1" = none :=
  (acceptUrl_drops_iff_hangul _ (by decide) (by decide) (by decide)).mpr (by decide)

/-- Helper: mapping a function that fixes every member is the identity. -/
theorem map_id_of_mem {α : Type} (f : α → α) :
    ∀ l : List α, (∀ x ∈ l, f x = x) → l.map f = l := by
  intro l
  induction l with
  | nil => intro _; rfl
  | cons a as ih =>
    intro h
    rw [List.map_cons, h a (by simp), ih fun x hx => h x (by simp [hx])]

/-- Helper: a `filterMap` whose function returns `none` or `some` of its
argument is a `filter`. -/
theorem filterMap_of_none_or_self {α : Type} (f : α → Option α) :
    ∀ l : List α, (∀ x ∈ l, f x = none ∨ f x = some x) →
      l.filterMap f = l.filter fun x => (f x).isSome := by
  intro l
  induction l with
  | nil => intro _; rfl
  | cons a as ih =>
    intro h
    have ih' := ih fun x hx => h x (by simp [hx])
    rcases h a (by simp) with ha | ha <;> simp [List.filterMap_cons, List.filter_cons, ha, ih']

/-- Helper: a `filterMap` whose function fixes every member is the
identity. -/
theorem filterMap_some_self {α : Type} (f : α → Option α) :
    ∀ l : List α, (∀ x ∈ l, f x = some x) → l.filterMap f = l := by
  intro l
  induction l with
  | nil => intro _; rfl
  | cons a as ih =>
    intro h
    simp [List.filterMap_cons, h a (by simp), ih fun x hx => h x (by simp [hx])]

/-- Helper: membership in the sorted deduplication. -/
theorem mem_pySortedSet {u : String} {l : List String} :
    u ∈ pySortedSet l ↔ u ∈ l := by
  unfold pySortedSet
  rw [(List.perm_insertionSort strLe l.dedup).mem_iff, List.mem_dedup]

/-- Helper: the sorted deduplication is sorted. -/
theorem sorted_pySortedSet (l : List String) : List.Sorted strLe (pySortedSet l) :=
  List.sorted_insertionSort strLe l.dedup

/-- Helper: the sorted deduplication has no duplicates. -/
theorem nodup_pySortedSet (l : List String) : (pySortedSet l).Nodup :=
  ((List.perm_insertionSort strLe l.dedup).nodup_iff).mpr (List.nodup_dedup l)

/-- Helper: sorting and deduplicating a sorted duplicate-free list changes
nothing. -/
theorem pySortedSet_eq_self {l : List String} (hs : List.Sorted strLe l)
    (hn : l.Nodup) : pySortedSet l = l := by
  unfold pySortedSet
  rw [List.dedup_eq_self.mpr hn, List.Sorted.insertionSort_eq hs]

/-- Helper: percent-encoding is the identity on space-free strings. -/
theorem encodeSpaces_eq_self {s : String} (h : ∀ c ∈ s.data, c ≠ ' ') :
    encodeSpaces s = s := by
  unfold encodeSpaces
  cases s with
  | mk data =>
    simp only
    congr 1
    induction data with
    | nil => rfl
    | cons c cs ih =>
      rw [List.flatMap_cons, if_neg (h c (by simp)), ih fun x hx => h x (by simp [hx])]
      rfl

/-- Helper: on a stripped space-free candidate, the filter step either
rejects or returns the candidate unchanged. -/
theorem acceptUrl_none_or_self {u : String} (hst : pyStrip u = u)
    (hsp : ∀ c ∈ u.data, c ≠ ' ') :
    acceptUrl u = none ∨ acceptUrl u = some u := by
  unfold acceptUrl
  by_cases h0 : u = ""
  · exact Or.inl (by rw [if_pos h0])
  · rw [if_neg h0]
    simp only [hst]
    by_cases h1 : pyStartsWith u "http"
    · by_cases h2 : containsSub IFRAME_KEY u
      · by_cases h3 : contains_hangul u
        · exact Or.inl (by simp [h1, h2, h3])
        · exact Or.inr (by simp [h1, h2, h3, encodeSpaces_eq_self hsp])
      · exact Or.inl (by simp [h1, h2])
    · exact Or.inl (by simp [h1])

/-- C5 counterexample: percent-encoding of spaces happens after sorting, so
a second normalization pass re-sorts the encoded survivors into a different
order — `normalize(normalize(S)) ≠ normalize(S)` for this two-element `S`
(`' ' < '!'` before encoding but `'!' < '%'` after). -/
theorem normalize_not_idempotent_cex :
    normalize_preview_urls (normalize_preview_urls
        ["http://h/docviewer/skin/doc.html?x=a b",
         "http://h/docviewer/skin/doc.html?x=a!b"])
      ≠ normalize_preview_urls
        ["http://h/docviewer/skin/doc.html?x=a b",
         "http://h/docviewer/skin/doc.html?x=a!b"] := by
  decide

/-- C5 amended: normalization is idempotent on candidate collections whose
elements carry no literal space and no leading or trailing whitespace (for
such inputs nothing is rewritten between the sort and the output, in both
the accepted and the fallback branch); the counterexample shows idempotence
fails in general once space encoding can reorder or merge the sorted
output. -/
theorem normalize_idem (urls : List String)
    (hsp : ∀ u ∈ urls, ∀ c ∈ u.data, c ≠ ' ')
    (hst : ∀ u ∈ urls, pyStrip u = u) :
    normalize_preview_urls (normalize_preview_urls urls)
      = normalize_preview_urls urls := by
  have hbase : ∀ u ∈ pySortedSet urls, acceptUrl u = none ∨ acceptUrl u = some u :=
    fun u hu =>
      acceptUrl_none_or_self (hst u (mem_pySortedSet.mp hu))
        (hsp u (mem_pySortedSet.mp hu))
  have hsorted := sorted_pySortedSet urls
  have hnodup := nodup_pySortedSet urls
  by_cases hout : (pySortedSet urls).filterMap acceptUrl = []
  · -- fallback branch: the result is the non-empty raw survivors unchanged
    have hrej : ∀ u ∈ pySortedSet urls, acceptUrl u = none :=
      List.filterMap_eq_nil_iff.mp hout
    have h1 : normalize_preview_urls urls
        = (pySortedSet urls).filter fun u => u ≠ "" := by
      unfold normalize_preview_urls
      rw [hout, if_pos rfl]
      exact map_id_of_mem _ _ fun x hx =>
        encodeSpaces_eq_self (hsp x (mem_pySortedSet.mp (List.mem_of_mem_filter hx)))
    rw [h1]
    have hsub : List.Sublist ((pySortedSet urls).filter fun u => decide (u ≠ ""))
        (pySortedSet urls) := List.filter_sublist _
    have hbase2 : pySortedSet ((pySortedSet urls).filter fun u => u ≠ "")
        = (pySortedSet urls).filter fun u => u ≠ "" :=
      pySortedSet_eq_self (hsorted.sublist hsub) (hnodup.sublist hsub)
    unfold normalize_preview_urls
    rw [hbase2]
    have hrej2 : ((pySortedSet urls).filter fun u => u ≠ "").filterMap acceptUrl
        = [] :=
      List.filterMap_eq_nil_iff.mpr fun u hu =>
        hrej u (List.mem_of_mem_filter hu)
    rw [hrej2, if_pos rfl]
    have hne : ∀ u ∈ (pySortedSet urls).filter fun u => u ≠ "",
        decide (u ≠ "") = true := fun u hu => (List.mem_filter.mp hu).2
    rw [List.filter_eq_self.mpr hne]
    exact map_id_of_mem _ _ fun x hx =>
      encodeSpaces_eq_self (hsp x (mem_pySortedSet.mp (List.mem_of_mem_filter hx)))
  · -- accepted branch: the output is a sorted duplicate-free fixed-point set
    have hout_eq : (pySortedSet urls).filterMap acceptUrl
        = (pySortedSet urls).filter fun u => (acceptUrl u).isSome :=
      filterMap_of_none_or_self _ _ hbase
    have h1 : normalize_preview_urls urls
        = (pySortedSet urls).filterMap acceptUrl := by
      unfold normalize_preview_urls
      rw [if_neg hout]
    rw [h1]
    have hsub : List.Sublist ((pySortedSet urls).filterMap acceptUrl)
        (pySortedSet urls) := by
      rw [hout_eq]; exact List.filter_sublist _
    have hfix : ∀ x ∈ (pySortedSet urls).filterMap acceptUrl,
        acceptUrl x = some x := by
      intro x hx
      rcases List.mem_filterMap.mp hx with ⟨a, ha, hfa⟩
      rcases hbase a ha with h | h
      · rw [h] at hfa; cases hfa
      · rw [h] at hfa
        injection hfa with he
        rw [← he, h, he]
    unfold normalize_preview_urls
    rw [pySortedSet_eq_self (hsorted.sublist hsub) (hnodup.sublist hsub)]
    rw [filterMap_some_self _ _ hfix, if_neg hout]

/-- C5 amended witness: a concrete space-free stripped collection on which
both branches of the pipeline are exercised and idempotence holds. -/
theorem normalize_idem_witness :
    normalize_preview_urls (normalize_preview_urls
        ["http://h/docviewer/skin/doc.html?x=a!b", "ftp://x"])
      = normalize_preview_urls
        ["http://h/docviewer/skin/doc.html?x=a!b", "ftp://x"] :=
  normalize_idem _ (by decide) (by decide)

/-- Helper: a string with a non-empty left part appended is non-empty. -/
theorem append_ne_left (s t : String) (h : s ≠ "") : s ++ t ≠ "" := by
  intro he
  apply h
  cases s with
  | mk d =>
    cases t with
    | mk d' =>
      have hd : d ++ d' = ([] : List Char) := congrArg String.data he
      rcases List.append_eq_nil.mp hd with ⟨h1, _⟩
      rw [h1]

/-- Helper: an anchored `rs=` match captures a non-empty group. -/
theorem matchRsAt_ne (l : List Char) (r : String) (h : matchRsAt l = some r) :
    r ≠ "" := by
  cases l with
  | nil => cases h
  | cons c t =>
    simp only [matchRsAt] at h
    by_cases hc : (decide (c = '?') || decide (c = '&')) = true
    · rw [if_pos hc] at h
      cases hd : dropLit "rs=".data t with
      | none => rw [hd] at h; simp at h
      | some r1 =>
        rw [hd] at h
        simp only at h
        by_cases hg : (List.takeWhile (fun ch => decide (ch ≠ '&')) r1).isEmpty = true
        · rw [if_pos hg] at h; cases h
        · rw [if_neg hg] at h
          injection h with hr
          rw [← hr]
          intro he
          apply hg
          have hdata : List.takeWhile (fun ch => decide (ch ≠ '&')) r1 = [] :=
            congrArg String.data he
          rw [hdata]
          rfl
    · rw [if_neg hc] at h; cases h

/-- Helper: any `rs=` search result is a non-empty string. -/
theorem searchRsAux_ne (l : List Char) (r : String) (h : searchRsAux l = some r) :
    r ≠ "" := by
  induction l with
  | nil => cases h
  | cons c t ih =>
    simp only [searchRsAux] at h
    cases hm : matchRsAt (c :: t) with
    | some r' =>
      rw [hm] at h
      injection h with hr
      rw [← hr]
      exact matchRsAt_ne _ _ hm
    | none =>
      rw [hm] at h
      exact ih h

/-- Helper: the page-level suffix, when found, is non-empty. -/
theorem find_any_rs_suffix_ne (page : ParsedPage) (r : String)
    (h : find_any_rs_suffix page = some r) : r ≠ "" := by
  simp only [find_any_rs_suffix] at h
  cases hf : page.previewIframeSrcs.find?
      (fun src => containsSub "docviewer/result/" src) with
  | none => rw [hf] at h; simp at h
  | some src =>
    rw [hf] at h
    exact searchRsAux_ne _ _ h

/-- Helper: the same-row suffix, when found, is non-empty. -/
theorem rowRs_ne (a : PreviewAnchor) (r : String) (h : rowRs a = some r) :
    r ≠ "" := by
  obtain ⟨oc, li⟩ := a
  cases li with
  | none => simp [rowRs] at h
  | some lc =>
    obtain ⟨st, isrc⟩ := lc
    cases isrc with
    | none => simp [rowRs] at h
    | some src =>
      simp only [rowRs] at h
      exact searchRsAux_ne _ _ h

/-- C7: for an anchor whose onclick matches the handler pattern and whose
row carries a non-empty filename label, the onclick-reconstruction strategy
produces a candidate exactly when a same-row iframe `rs` suffix or a
page-level borrowable suffix exists — absent both, the anchor contributes
nothing; present either, it contributes exactly one viewer URL (the
`Option` result carries at most one). -/
theorem onclick_candidate_iff (page : ParsedPage) (base : String)
    (a : PreviewAnchor) (h1 : (searchFn a.onclick).isSome = true)
    (h2 : ∃ fn, anchorFilename a = some fn ∧ fn ≠ "") :
    (anchorCandidate (find_any_rs_suffix page) base a).isSome = true
      ↔ ((rowRs a).isSome = true ∨ (find_any_rs_suffix page).isSome = true) := by
  obtain ⟨args, hargs⟩ := Option.isSome_iff_exists.mp h1
  obtain ⟨brd, seq, fsq⟩ := args
  obtain ⟨fn, hfn, hfne⟩ := h2
  unfold anchorCandidate
  rw [hargs, hfn]
  simp only [if_neg hfne]
  cases hrow : rowRs a with
  | some r =>
    have hr : r ≠ "" := rowRs_ne a r hrow
    simp [hr]
  | none =>
    cases hsuf : find_any_rs_suffix page with
    | none => simp
    | some suffix =>
      have hsne : suffix ≠ "" := find_any_rs_suffix_ne page suffix hsuf
      have hcons : ("/docviewer/result/" ++ brd ++ "/" ++ seq ++ "/"
          ++ fsq ++ "/" ++ (pySplit '/' (stripSlashes suffix)).getLast?.getD "") ≠ "" := by
        apply append_ne_left
        apply append_ne_left
        apply append_ne_left
        apply append_ne_left
        apply append_ne_left
        apply append_ne_left
        apply append_ne_left
        decide
      simp [hsne, hcons]

/-- C7 witness: an anchor with no same-row iframe still gets exactly one
reconstructed URL when another preview iframe on the page supplies a
year-month suffix. -/
theorem onclick_candidate_iff_witness :
    (anchorCandidate
        (find_any_rs_suffix
          ⟨["/v/docviewer/result/x?rs=/docviewer/result/n1/7/1/202401"], [], []⟩)
        "https://h"
        ⟨"fnConvertDocViewer('n1','7','1')", some ⟨some "f.hwpx", none⟩⟩).isSome
      = true := by
  exact (onclick_candidate_iff
      ⟨["/v/docviewer/result/x?rs=/docviewer/result/n1/7/1/202401"], [], []⟩
      "https://h"
      ⟨"fnConvertDocViewer('n1','7','1')", some ⟨some "f.hwpx", none⟩⟩
      (by decide) ⟨"f.hwpx", by decide, by decide⟩).mpr
    (Or.inr (by decide))

/-- C9: end-to-end scenario A — one iframe with the viewer `src` inside the
preview container and no other candidate source resolves, against base
`https://x.go.kr`, to exactly the absolutized singleton. -/
theorem extract_scenario_A :
    extract_preview_urls ⟨["/docviewer/skin/doc.html?fn=a.hwpx&rs=/r/1"], [], []⟩
        "https://x.go.kr" none
      = ["https://x.go.kr/docviewer/skin/doc.html?fn=a.hwpx&rs=/r/1"] := by
  decide

/-- C10 counterexample: a page whose two accepted iframe candidates differ
at a space character resolves to a list that is *not* in ascending
lexicographic order — percent-encoding runs after sorting and `' ' < '!'`
while `'%' > '!'`, so the second returned element precedes the first. -/
theorem resolver_not_sorted_cex :
    extract_preview_urls
        ⟨["/docviewer/skin/doc.html?x=a b", "/docviewer/skin/doc.html?x=a!b"], [], []⟩
        "http://h" none
      = ["http://h/docviewer/skin/doc.html?x=a%20b",
         "http://h/docviewer/skin/doc.html?x=a!b"]
    ∧ strLe "http://h/docviewer/skin/doc.html?x=a!b"
        "http://h/docviewer/skin/doc.html?x=a%20b"
    ∧ "http://h/docviewer/skin/doc.html?x=a!b"
        ≠ "http://h/docviewer/skin/doc.html?x=a%20b" :=
  ⟨by decide, by decide, by decide⟩

/-- C10 amended: the resolver's output is a function of the candidate *set*
(it is invariant under any permutation of the incoming candidates, hence
independent of strategy order and encounter order); and whenever the
candidates carry no literal space and no surrounding whitespace — so that
the post-sort rewriting is the identity — the returned list is sorted in
ascending lexicographic order without duplicates, in the accepted and the
fallback branch alike.  Full sortedness of the raw output fails in general
(see the counterexample) because space encoding happens after sorting. -/
theorem normalize_canonical_order (urls urls' : List String)
    (hperm : List.Perm urls urls') :
    normalize_preview_urls urls = normalize_preview_urls urls'
    ∧ ((∀ u ∈ urls, ∀ c ∈ u.data, c ≠ ' ') → (∀ u ∈ urls, pyStrip u = u) →
        List.Sorted strLe (normalize_preview_urls urls)
          ∧ (normalize_preview_urls urls).Nodup) := by
  constructor
  · have hseteq : pySortedSet urls = pySortedSet urls' := by
      refine List.eq_of_perm_of_sorted ?_ (sorted_pySortedSet urls)
        (sorted_pySortedSet urls')
      exact (List.perm_insertionSort strLe urls.dedup).trans
        (hperm.dedup.trans (List.perm_insertionSort strLe urls'.dedup).symm)
    unfold normalize_preview_urls
    rw [hseteq]
  · intro hsp hst
    have hbase : ∀ u ∈ pySortedSet urls, acceptUrl u = none ∨ acceptUrl u = some u :=
      fun u hu =>
        acceptUrl_none_or_self (hst u (mem_pySortedSet.mp hu))
          (hsp u (mem_pySortedSet.mp hu))
    by_cases hout : (pySortedSet urls).filterMap acceptUrl = []
    · have h1 : normalize_preview_urls urls
          = (pySortedSet urls).filter fun u => decide (u ≠ "") := by
        unfold normalize_preview_urls
        rw [hout, if_pos rfl]
        exact map_id_of_mem _ _ fun x hx =>
          encodeSpaces_eq_self (hsp x (mem_pySortedSet.mp (List.mem_of_mem_filter hx)))
      rw [h1]
      have hsub : List.Sublist ((pySortedSet urls).filter fun u => decide (u ≠ ""))
          (pySortedSet urls) := List.filter_sublist _
      exact ⟨(sorted_pySortedSet urls).sublist hsub,
        (nodup_pySortedSet urls).sublist hsub⟩
    · have hout_eq : (pySortedSet urls).filterMap acceptUrl
          = (pySortedSet urls).filter fun u => (acceptUrl u).isSome :=
        filterMap_of_none_or_self _ _ hbase
      have h1 : normalize_preview_urls urls
          = (pySortedSet urls).filterMap acceptUrl := by
        unfold normalize_preview_urls
        rw [if_neg hout]
      rw [h1, hout_eq]
      have hsub : List.Sublist ((pySortedSet urls).filter fun u => (acceptUrl u).isSome)
          (pySortedSet urls) := List.filter_sublist _
      exact ⟨(sorted_pySortedSet urls).sublist hsub,
        (nodup_pySortedSet urls).sublist hsub⟩

/-- C10 amended witness: two accepted space-free candidates given in
descending order come back equal to the ascending-order run, sorted and
duplicate-free. -/
theorem normalize_canonical_order_witness :
    normalize_preview_urls
        ["http://h/docviewer/skin/doc.html?x=b", "http://h/docviewer/skin/doc.html?x=a"]
      = normalize_preview_urls
        ["http://h/docviewer/skin/doc.html?x=a", "http://h/docviewer/skin/doc.html?x=b"]
    ∧ List.Sorted strLe (normalize_preview_urls
        ["http://h/docviewer/skin/doc.html?x=b",
         "http://h/docviewer/skin/doc.html?x=a"])
    ∧ (normalize_preview_urls
        ["http://h/docviewer/skin/doc.html?x=b",
         "http://h/docviewer/skin/doc.html?x=a"]).Nodup := by
  have h := normalize_canonical_order
      ["http://h/docviewer/skin/doc.html?x=b", "http://h/docviewer/skin/doc.html?x=a"]
      ["http://h/docviewer/skin/doc.html?x=a", "http://h/docviewer/skin/doc.html?x=b"]
      (List.Perm.swap _ _ [])
  exact ⟨h.1, (h.2 (by decide) (by decide)).1, (h.2 (by decide) (by decide)).2⟩

/-- Helper: the retry loop performs at most as many attempts as iterations
remain. -/
theorem crawlFrom_attempt_count
    (f : Nat → Except Unit (Option String × Option String)) :
    ∀ (r i : Nat), ((crawlFrom f i r).2.filter isAttempt).length ≤ r := by
  intro r
  induction r with
  | zero => intro i; simp [crawlFrom]
  | succ n ih =>
    intro i
    cases hfi : f i with
    | ok pr =>
      obtain ⟨fit, raw⟩ := pr
      by_cases ht : (truthyOpt fit || truthyOpt raw) = true
      · simp [crawlFrom, hfi, ht, isAttempt]
      · simp only [crawlFrom, hfi, Bool.not_eq_true] at *
        rw [if_neg (by simp [ht])]
        simp only [List.filter_cons, isAttempt, List.length_cons]
        exact Nat.succ_le_succ (ih (i + 1))
    | error e =>
      simp only [crawlFrom, hfi]
      simp only [List.filter_cons, isAttempt, List.length_cons]
      exact Nat.succ_le_succ (ih (i + 1))

/-- Helper: when every attempt in range fails, the loop returns the failure
marker and its trace alternates attempts with sleeps. -/
theorem crawlFrom_all_fail
    (f : Nat → Except Unit (Option String × Option String)) :
    ∀ (r i : Nat), (∀ j, j < r → attemptFails (f (i + j)) = true) →
      crawlFrom f i r = (⟨none, none⟩, failTrace i r) := by
  intro r
  induction r with
  | zero => intro i _; rfl
  | succ n ih =>
    intro i h
    have h0 : attemptFails (f i) = true := by
      have := h 0 (Nat.succ_pos n)
      simpa using this
    have hshift : ∀ j, j < n → attemptFails (f (i + 1 + j)) = true := by
      intro j hj
      have heq : i + 1 + j = i + (j + 1) := by omega
      rw [heq]
      exact h (j + 1) (by omega)
    cases hfi : f i with
    | error e =>
      simp only [crawlFrom, hfi]
      rw [ih (i + 1) hshift]
      rfl
    | ok pr =>
      obtain ⟨fit, raw⟩ := pr
      have ht : (truthyOpt fit || truthyOpt raw) = false := by
        rw [hfi] at h0
        simpa [attemptFails] using h0
      simp only [crawlFrom, hfi, ht, Bool.false_eq_true, if_false]
      rw [ih (i + 1) hshift]
      rfl

/-- Helper: the loop stops at the first non-failing attempt, with one sleep
after each failed attempt before it. -/
theorem crawlFrom_first_success
    (f : Nat → Except Unit (Option String × Option String)) :
    ∀ (k r i : Nat), k < r →
      (∀ j, j < k → attemptFails (f (i + j)) = true) →
      attemptFails (f (i + k)) = false →
      crawlFrom f i r
        = (successResult (f (i + k)), failTrace i k ++ [.attempt (i + k)]) := by
  intro k
  induction k with
  | zero =>
    intro r i hr _ hs
    cases r with
    | zero => omega
    | succ n =>
      rw [show i + 0 = i from rfl] at hs
      cases hfi : f i with
      | error e =>
        rw [hfi] at hs
        simp [attemptFails] at hs
      | ok pr =>
        obtain ⟨fit, raw⟩ := pr
        have ht : (truthyOpt fit || truthyOpt raw) = true := by
          rw [hfi] at hs
          rw [show attemptFails (Except.ok (fit, raw))
              = !(truthyOpt fit || truthyOpt raw) from rfl] at hs
          cases hx : (truthyOpt fit || truthyOpt raw) with
          | false => rw [hx] at hs; simp at hs
          | true => rfl
        simp only [crawlFrom, hfi, ht, if_true]
        rw [show i + 0 = i from rfl, hfi]
        rfl
  | succ m ih =>
    intro r i hr hfail hs
    cases r with
    | zero => omega
    | succ n =>
      have h0 : attemptFails (f i) = true := by
        have := hfail 0 (Nat.succ_pos m)
        simpa using this
      have hshift : ∀ j, j < m → attemptFails (f (i + 1 + j)) = true := by
        intro j hj
        have heq : i + 1 + j = i + (j + 1) := by omega
        rw [heq]
        exact hfail (j + 1) (by omega)
      have hs' : attemptFails (f (i + 1 + m)) = false := by
        have heq : i + 1 + m = i + (m + 1) := by omega
        rw [heq]
        exact hs
      have heq : i + 1 + m = i + (m + 1) := by omega
      cases hfi : f i with
      | error e =>
        simp only [crawlFrom, hfi]
        rw [ih n (i + 1) (by omega) hshift hs', heq]
        rfl
      | ok pr =>
        obtain ⟨fit, raw⟩ := pr
        have ht : (truthyOpt fit || truthyOpt raw) = false := by
          rw [hfi] at h0
          simpa [attemptFails] using h0
        simp only [crawlFrom, hfi, ht, Bool.false_eq_true, if_false]
        rw [ih n (i + 1) (by omega) hshift hs', heq]
        rfl

/-- C6: the resilient render pipeline performs at most `retries + 1`
attempts (the first try included); when every attempt times out, raises, or
yields no markdown, each attempt is followed by exactly one inter-attempt
delay and the pipeline returns the explicit `{"fit": None, "raw": None}`
failure marker — a value, never an exception; and when attempt `k` is the
first to yield markdown, the trace holds one delay after each of the `k`
failed attempts before it and the result carries the markdown. -/
theorem acrawl_retry_discipline
    (f : Nat → Except Unit (Option String × Option String)) (retries : Nat) :
    ((acrawl_markdown f retries).2.filter isAttempt).length ≤ retries + 1
    ∧ ((∀ j, j ≤ retries → attemptFails (f j) = true) →
        acrawl_markdown f retries = (⟨none, none⟩, failTrace 0 (retries + 1)))
    ∧ (∀ k, k ≤ retries → (∀ j, j < k → attemptFails (f j) = true) →
        attemptFails (f k) = false →
        acrawl_markdown f retries
          = (successResult (f k), failTrace 0 k ++ [.attempt k])) := by
  refine ⟨crawlFrom_attempt_count f (retries + 1) 0, ?_, ?_⟩
  · intro h
    exact crawlFrom_all_fail f (retries + 1) 0 fun j hj => by
      simpa using h j (by omega)
  · intro k hk hfail hs
    have h := crawlFrom_first_success f k (retries + 1) 0 (by omega)
      (fun j hj => by simpa using hfail j hj) (by simpa using hs)
    simpa using h

/-- C6 witness: end-to-end scenario D — two attempts allowed, the first
raises, the second succeeds with `"Body text"`; exactly one delay sits
between the two attempts and the markdown is returned. -/
theorem acrawl_retry_discipline_witness :
    acrawl_markdown
        (fun i => if i = 0 then .error () else .ok (some "Body text", none)) 1
      = (⟨some "Body text", some "Body text"⟩,
          [.attempt 0, .sleep, .attempt 1]) := by
  have h := (acrawl_retry_discipline
      (fun i => if i = 0 then .error () else .ok (some "Body text", none)) 1).2.2
      1 (by omega) (by decide) (by decide)
  rw [h]
  decide

/-- Helper: the body-read tail never lets an exception escape. -/
theorem bodyFallback_ok (p : PageOracle) : ∃ s, bodyFallback p = .ok s := by
  unfold bodyFallback
  cases hb : p.bodyText with
  | ok t => exact ⟨t, rfl⟩
  | error e => exact ⟨"", rfl⟩

/-- Helper: the frame-aware extraction never lets an exception escape. -/
theorem extract_text_with_iframe_ok (p : PageOracle) :
    ∃ s, extract_text_with_iframe p = .ok s := by
  unfold extract_text_with_iframe
  by_cases hm : pyStrip (String.intercalate "\n\n"
      (dedupChunks []
        ((match p.innerWrapFrame with
          | .error _ => []
          | .ok none => []
          | .ok (some fo) =>
            match scroll_and_get_text fo with
            | .ok t => if t = "" then [] else [pyStrip t]
            | .error _ => []) ++ p.frames.filterMap chunkOf))) ≠ ""
  · exact ⟨_, if_pos hm⟩
  · rw [if_neg hm]
    exact bodyFallback_ok p

/-- C8: the frame-aware extraction operation never raises past its
boundary — for every oracle behaviour `extract_text_from_url` returns a
string value (so in particular it raises only on total inability to read
any frame or the body, vacuously: even then the code degrades to `""`),
and a frame whose scripted read and body-locator read both raise
contributes the empty string instead of raising. -/
theorem extract_never_raises (p : PageOracle) (clean : Bool) :
    (∃ s, extract_text_from_url p clean = .ok s)
    ∧ (∀ e, extract_text_with_iframe p ≠ .error e)
    ∧ (∀ fo : FrameOracle, fo.evalScroll = .error () → fo.bodyInner = .error () →
        scroll_and_get_text fo = .ok "") := by
  obtain ⟨s, hs⟩ := extract_text_with_iframe_ok p
  refine ⟨?_, ?_, ?_⟩
  · unfold extract_text_from_url
    cases hg : p.gotoResult with
    | error e => exact ⟨"", rfl⟩
    | ok u => exact ⟨if clean then clean_text s else s, by rw [hs]⟩
  · intro e he
    rw [hs] at he
    cases he
  · intro fo h1 h2
    unfold scroll_and_get_text
    rw [h1, h2]

/-- C8 witness: with every primitive raising (navigation included) the
extraction still returns a value, and a doubly-failing frame reads as
`""`. -/
theorem extract_never_raises_witness :
    (∃ s, extract_text_from_url ⟨.error (), .error (), [], .error ()⟩ true = .ok s)
    ∧ scroll_and_get_text ⟨.error (), .error ()⟩ = .ok "" := by
  have h := extract_never_raises ⟨.error (), .error (), [], .error ()⟩ true
  exact ⟨h.1, h.2.2 ⟨.error (), .error ()⟩ rfl rfl⟩

/-- C4 evidence: on `"a\n\n\nb"` the cleaning step returns `"a b"`, not the
`"a\n\nb"` the specification (and the source's own comment next to the
`\n{3,}` substitution) promises — the preceding `\s+ → ' '` substitution has
already consumed every newline, so blank-line separators never survive and
the newline-limiting rule is dead code. -/
theorem clean_text_kills_blank_lines : clean_text "a\n\n\nb" = "a b" := by
  decide

end PyCrawler
